import Mathlib

/-
Verification of the m3 repository fragment.

Part 1 embeds src/src/dbnode/storage/result.go (the tickResult statistics
accumulator).  Go maps are modelled as association lists whose list order
stands for the (unspecified) Go map iteration order; a nil map is `none`,
a non-nil map is `some list`.  Go `int` is modelled as `Int` (no claim
probes 64-bit overflow).

Part 2 models the versioned KV store with the shared-watch subsystem.
Its implementation is not part of the visible sources (only its test file
is), so it is modelled from the specification.
-/

namespace M3

/-- Inner deletion loop of truncateTopMetrics (result.go lines 66-76):
iterates the map in order; entries below the cutoff are deleted, entries
equal to the cutoff consume the quota while it lasts and are deleted
afterwards, entries above the cutoff are kept. -/
def deleteLoop (cutoffValue : Int) : Nat → List (String × Int) → List (String × Int)
  | _, [] => []
  | quota, (metric, cardinality) :: rest =>
    if cardinality < cutoffValue then
      deleteLoop cutoffValue quota rest
    else if cardinality = cutoffValue then
      if 0 < quota then (metric, cardinality) :: deleteLoop cutoffValue (quota - 1) rest
      else deleteLoop cutoffValue quota rest
    else (metric, cardinality) :: deleteLoop cutoffValue quota rest

/-- Embeds truncateTopMetrics (result.go lines 44-77).  Note on line 56 of
the source: `sort.Reverse(sort.IntSlice(cardinalities))` only constructs a
reversed `sort.Interface` value and discards it; `sort.Sort` is never
called, so the cardinalities slice keeps its iteration order.  The cutoff
is therefore read from the UNSORTED slice, which this embedding reproduces
faithfully. -/
def truncateTopMetrics (topN : Int) (m : Option (List (String × Int))) :
    Option (List (String × Int)) :=
  if topN ≤ 0 then m
  else
    match m with
    | none => none
    | some l =>
      if (l.length : Int) ≤ topN then some l
      else
        let cardinalities := l.map Prod.snd
        let cutoffValue := cardinalities.getD (topN.toNat - 1) 0
        let cutoffValueQuota :=
          1 + ((cardinalities.take (topN.toNat - 1)).reverse.takeWhile
                 (fun c => c == cutoffValue)).length
        some (deleteLoop cutoffValue cutoffValueQuota l)

/-- Embeds the tickResult struct (result.go lines 25-38). -/
structure tickResult where
  activeSeries : Int
  expiredSeries : Int
  activeBlocks : Int
  wiredBlocks : Int
  unwiredBlocks : Int
  pendingMergeBlocks : Int
  madeExpiredBlocks : Int
  madeUnwiredBlocks : Int
  mergedOutOfOrderBlocks : Int
  errors : Int
  evictedBuckets : Int
  metricToCardinality : Option (List (String × Int))
deriving DecidableEq

/-- Embeds trackTopMetrics (result.go lines 40-42): installs an empty map. -/
def tickResult.trackTopMetrics (r : tickResult) : tickResult :=
  { r with metricToCardinality := some [] }

/-- One step of the map-union loop in merge (result.go lines 101-107):
add the cardinality to an existing entry, otherwise insert the metric. -/
def mapUpsert (acc : List (String × Int)) (metric : String) (cardinality : Int) :
    List (String × Int) :=
  if acc.any (fun q => q.1 == metric) then
    acc.map (fun q => if q.1 == metric then (q.1, q.2 + cardinality) else q)
  else acc ++ [(metric, cardinality)]

/-- The map-union loop of merge, folding over the other map in iteration
order. -/
def mergeMaps (rm om : List (String × Int)) : List (String × Int) :=
  om.foldl (fun acc q => mapUpsert acc q.1 q.2) rm

/-- Embeds merge (result.go lines 80-110): adds the eleven counters, then
unions the cardinality maps (early return when either side is nil) and
truncates. -/
def tickResult.merge (r : tickResult) (other : tickResult) (topN : Int) : tickResult :=
  let r1 : tickResult :=
    { r with
      activeSeries := r.activeSeries + other.activeSeries
      expiredSeries := r.expiredSeries + other.expiredSeries
      activeBlocks := r.activeBlocks + other.activeBlocks
      wiredBlocks := r.wiredBlocks + other.wiredBlocks
      pendingMergeBlocks := r.pendingMergeBlocks + other.pendingMergeBlocks
      unwiredBlocks := r.unwiredBlocks + other.unwiredBlocks
      madeExpiredBlocks := r.madeExpiredBlocks + other.madeExpiredBlocks
      madeUnwiredBlocks := r.madeUnwiredBlocks + other.madeUnwiredBlocks
      mergedOutOfOrderBlocks := r.mergedOutOfOrderBlocks + other.mergedOutOfOrderBlocks
      errors := r.errors + other.errors
      evictedBuckets := r.evictedBuckets + other.evictedBuckets }
  match other.metricToCardinality with
  | none => r1
  | some om =>
    match r1.metricToCardinality with
    | none => { r1 with metricToCardinality := some om }
    | some rm =>
      { r1 with metricToCardinality := truncateTopMetrics topN (some (mergeMaps rm om)) }

/-- Every entry kept by the deletion loop has cardinality at least the
cutoff value. -/
theorem deleteLoop_mem_ge (cutoffValue : Int) :
    ∀ (quota : Nat) (l : List (String × Int)),
      ∀ p ∈ deleteLoop cutoffValue quota l, cutoffValue ≤ p.2 := by
  intro quota l
  induction l generalizing quota with
  | nil => intro p hp; simp [deleteLoop] at hp
  | cons a rest ih =>
    intro p hp
    obtain ⟨metric, cardinality⟩ := a
    simp only [deleteLoop] at hp
    by_cases h1 : cardinality < cutoffValue
    · simp only [if_pos h1] at hp
      exact ih quota p hp
    · simp only [if_neg h1] at hp
      by_cases h2 : cardinality = cutoffValue
      · simp only [if_pos h2] at hp
        by_cases h3 : 0 < quota
        · simp only [if_pos h3] at hp
          rcases List.mem_cons.mp hp with h | h
          · subst h; simp [h2.symm.le]
          · exact ih (quota - 1) p h
        · simp only [if_neg h3] at hp
          exact ih quota p hp
      · simp only [if_neg h2] at hp
        rcases List.mem_cons.mp hp with h | h
        · subst h; exact le_of_not_lt h1
        · exact ih quota p h

/-- Every entry with cardinality strictly above the cutoff value survives
the deletion loop. -/
theorem deleteLoop_mem_of_gt (cutoffValue : Int) :
    ∀ (quota : Nat) (l : List (String × Int)),
      ∀ q ∈ l, cutoffValue < q.2 → q ∈ deleteLoop cutoffValue quota l := by
  intro quota l
  induction l generalizing quota with
  | nil => intro q hq; simp at hq
  | cons a rest ih =>
    intro q hq hgt
    obtain ⟨metric, cardinality⟩ := a
    simp only [deleteLoop]
    rcases List.mem_cons.mp hq with h | h
    · subst h
      simp only at hgt
      have h1 : ¬ cardinality < cutoffValue := not_lt.mpr hgt.le
      have h2 : ¬ cardinality = cutoffValue := ne_of_gt hgt
      simp [if_neg h1, if_neg h2]
    · by_cases h1 : cardinality < cutoffValue
      · simp only [if_pos h1]
        exact ih quota q h hgt
      · simp only [if_neg h1]
        by_cases h2 : cardinality = cutoffValue
        · simp only [if_pos h2]
          by_cases h3 : 0 < quota
          · simp only [if_pos h3]
            exact List.mem_cons_of_mem _ (ih (quota - 1) q h hgt)
          · simp only [if_neg h3]
            exact ih quota q h hgt
        · simp only [if_neg h2]
          exact List.mem_cons_of_mem _ (ih quota q h hgt)

/-- C9: after truncateTopMetrics, every retained metric has cardinality at
least as large as every deleted metric (no deleted metric outranks a
retained one).  This holds for every map, every iteration order and every
topN, because retained entries are at least the cutoff value and deleted
entries are at most the cutoff value. -/
theorem truncate_retained_ge_deleted (topN : Int) (l out : List (String × Int))
    (hout : truncateTopMetrics topN (some l) = some out) :
    ∀ p ∈ out, ∀ q ∈ l, q ∉ out → q.2 ≤ p.2 := by
  intro p hp q hql hqout
  unfold truncateTopMetrics at hout
  by_cases h0 : topN ≤ 0
  · simp only [if_pos h0, Option.some.injEq] at hout
    subst hout; exact absurd hql hqout
  · simp only [if_neg h0] at hout
    by_cases hlen : (l.length : Int) ≤ topN
    · simp only [if_pos hlen, Option.some.injEq] at hout
      subst hout; exact absurd hql hqout
    · simp only [if_neg hlen, Option.some.injEq] at hout
      subst hout
      have hkept := deleteLoop_mem_ge _ _ _ p hp
      have hq : ¬ ((l.map Prod.snd).getD (topN.toNat - 1) 0 < q.2) := by
        intro hgt
        exact hqout (deleteLoop_mem_of_gt _ _ _ q hql hgt)
      exact le_trans (not_lt.mp hq) hkept

/-- C9 witness: a concrete run of truncateTopMetrics together with the
retained-outranks-deleted property at that run. -/
theorem truncate_retained_ge_deleted_witness :
    truncateTopMetrics 2 (some [("a", 1), ("b", 2), ("c", 3)]) = some [("b", 2), ("c", 3)] ∧
      ∀ p ∈ [(("b" : String), (2 : Int)), ("c", 3)],
        ∀ q ∈ [(("a" : String), (1 : Int)), ("b", 2), ("c", 3)],
          q ∉ [(("b" : String), (2 : Int)), ("c", 3)] → q.2 ≤ p.2 :=
  ⟨by decide, truncate_retained_ge_deleted 2 _ _ (by decide)⟩

/-- C10: truncateTopMetrics is a no-op when topN is non-positive, when the
map is nil, and when the map has at most topN entries; in particular
topN = 0 disables truncation instead of clearing the map. -/
theorem truncate_noop (topN : Int) (m : Option (List (String × Int)))
    (l : List (String × Int)) :
    (topN ≤ 0 → truncateTopMetrics topN m = m) ∧
      truncateTopMetrics topN none = none ∧
      ((l.length : Int) ≤ topN → truncateTopMetrics topN (some l) = some l) := by
  refine ⟨fun h0 => by simp [truncateTopMetrics, if_pos h0], ?_, ?_⟩
  · unfold truncateTopMetrics
    by_cases h0 : topN ≤ 0 <;> simp [h0]
  · intro hlen
    unfold truncateTopMetrics
    by_cases h0 : topN ≤ 0
    · simp [h0]
    · simp [h0, if_pos hlen]

/-- C10 witness: evaluates the three no-op cases at concrete inputs
(topN = 0 on a two-entry map, a nil map, and a map of size at most topN). -/
theorem truncate_noop_witness :
    ((0 : Int) ≤ 0 → truncateTopMetrics 0 (some [("a", 5), ("b", 7)]) = some [("a", 5), ("b", 7)]) ∧
      truncateTopMetrics 0 none = none ∧
      ((([(("a" : String), (5 : Int)), ("b", 7)].length : Int) ≤ 0 →
          truncateTopMetrics 0 (some [("a", 5), ("b", 7)]) = some [("a", 5), ("b", 7)])) :=
  truncate_noop 0 (some [("a", 5), ("b", 7)]) [("a", 5), ("b", 7)]

/-- C1 counterexample evidence: because the cardinalities slice is never
actually sorted (sort.Sort is missing around sort.Reverse on line 56), the
cutoff for the map with entries a→1, b→1, c→3, d→3 iterated in this order
and topN = 2 is the second slice element 1, the quota becomes 2, and all
four entries survive: the map is NOT truncated to the two
highest-cardinality metrics. -/
theorem truncateTopMetrics_sort_bug :
    truncateTopMetrics 2 (some [("a", 1), ("b", 1), ("c", 3), ("d", 3)]) =
      some [("a", 1), ("b", 1), ("c", 3), ("d", 3)] := by decide

/-- A tickResult used to exhibit the merge truncation bug: zero counters
and map a→1, b→1. -/
def mergeBugLeft : tickResult :=
  ⟨0, 0, 0, 0, 0, 0, 0, 0, 0, 0, 0, some [("a", 1), ("b", 1)]⟩

/-- The other tickResult for the merge truncation bug: counters 1..11 and
map c→3, d→3. -/
def mergeBugRight : tickResult :=
  ⟨1, 2, 3, 4, 5, 6, 7, 8, 9, 10, 11, some [("c", 3), ("d", 3)]⟩

/-- C2 counterexample evidence: merging two non-nil two-entry maps with
topN = 2 adds the counters correctly but leaves FOUR entries in the merged
map, because the truncation step never sorts the cardinalities slice.  The
intended behaviour (and the claim) would keep only c→3 and d→3. -/
theorem merge_topN_bug :
    (mergeBugLeft.merge mergeBugRight 2).metricToCardinality =
        some [("a", 1), ("b", 1), ("c", 3), ("d", 3)] ∧
      (mergeBugLeft.merge mergeBugRight 2).activeSeries = 1 ∧
      (mergeBugLeft.merge mergeBugRight 2).evictedBuckets = 11 := by decide

/-- Modelled from the spec: error kinds of the versioned store (spec
section 7); the store implementation itself is not among the visible
sources, only its test file is. -/
inductive KVError where
  | notFound
  | alreadyExists
  | versionMismatch
deriving DecidableEq

/-- Modelled from the spec: a Versioned Value is an opaque payload tagged
with an integer version (spec section 3); version 0 / absent means no
value has ever been observed. -/
structure VersionedValue where
  payload : String
  version : Nat
deriving DecidableEq

/-- Association-list lookup, returning the value of the first entry with
the given key. -/
def alookup [DecidableEq α] (l : List (α × β)) (k : α) : Option β :=
  match l with
  | [] => none
  | p :: rest => if p.1 = k then some p.2 else alookup rest k

/-- Association-list write: installs the binding at the front and drops
every older binding of the same key. -/
def aset [DecidableEq α] (l : List (α × β)) (k : α) (v : β) : List (α × β) :=
  (k, v) :: l.filter (fun p => decide (p.1 ≠ k))

/-- Association-list removal of every binding of the given key. -/
def aremove [DecidableEq α] (l : List (α × β)) (k : α) : List (α × β) :=
  l.filter (fun p => decide (p.1 ≠ k))

/-- Modelled from the spec: the per-subscriber Watch Handle state — its
key, the last delivered value, the single-slot coalescing notification
channel (true = one unread signal pending) and the closed flag (spec
sections 3 and 4.3). -/
structure HandleState where
  key : String
  current : Option VersionedValue
  notif : Bool
  closed : Bool
deriving DecidableEq

/-- Modelled from the spec: the per-key Watchable — an instance identity,
its key, the latest observed value and the attached handle ids (spec
sections 3 and 4.2). -/
structure Watchable where
  id : Nat
  key : String
  current : Option VersionedValue
  handles : List Nat
deriving DecidableEq

/-- Modelled from the spec: the whole Store state — the backend mapping,
the Watchable registry, the states of all handles ever created, and
fresh-id counters for watchables and handles (spec sections 3 and 4). -/
structure StoreState where
  backend : List (String × VersionedValue)
  watchables : List (String × Watchable)
  handleStates : List (Nat × HandleState)
  nextWatchableId : Nat
  nextHandleId : Nat
deriving DecidableEq

/-- The backend's current version for a key; 0 when the key was never
written (spec sections 3 and 4.1). -/
def bver (b : List (String × VersionedValue)) (k : String) : Nat :=
  match alookup b k with
  | some v => v.version
  | none => 0

/-- Modelled from the spec: Get — a direct backend read failing with
NotFound on a never-written key (spec section 4.1). -/
def kvGet (s : StoreState) (k : String) : Except KVError VersionedValue :=
  match alookup s.backend k with
  | some v => Except.ok v
  | none => Except.error KVError.notFound

/-- Modelled from the spec: Set — an unconditional write; the backend
assigns the next version, starting at 1 for a brand-new key (spec
section 4.1). -/
def kvSet (s : StoreState) (k p : String) : Nat × StoreState :=
  let newVersion := bver s.backend k + 1
  (newVersion, { s with backend := aset s.backend k ⟨p, newVersion⟩ })

/-- Modelled from the spec: SetIfNotExists — a conditional create that
fails with AlreadyExists, leaving the state untouched, when the key
already has a value (spec section 4.1). -/
def setIfNotExists (s : StoreState) (k p : String) : Except KVError Nat × StoreState :=
  match alookup s.backend k with
  | some _ => (Except.error KVError.alreadyExists, s)
  | none => (Except.ok 1, { s with backend := aset s.backend k ⟨p, 1⟩ })

/-- Modelled from the spec: CheckAndSet — a conditional write succeeding
with version expectedVersion + 1 exactly when the backend's current
version (0 for an absent key) equals expectedVersion, and failing with
VersionMismatch, leaving the state untouched, otherwise (spec
section 4.1). -/
def checkAndSet (s : StoreState) (k : String) (expected : Nat) (p : String) :
    Except KVError Nat × StoreState :=
  if bver s.backend k = expected then
    (Except.ok (expected + 1), { s with backend := aset s.backend k ⟨p, expected + 1⟩ })
  else (Except.error KVError.versionMismatch, s)

/-- Modelled from the spec: Watch — attaches a fresh handle (no current
value, empty channel) to the live Watchable for the key, creating a fresh
Watchable (with no observed value yet) when none is live; it never waits
for an initial value (spec sections 4.1, 4.2 and 4.4). -/
def watch (s : StoreState) (k : String) : Nat × StoreState :=
  let hid := s.nextHandleId
  let h : HandleState := ⟨k, none, false, false⟩
  match alookup s.watchables k with
  | some w =>
    (hid, { s with
      watchables := aset s.watchables k { w with handles := hid :: w.handles }
      handleStates := aset s.handleStates hid h
      nextHandleId := hid + 1 })
  | none =>
    (hid, { s with
      watchables := aset s.watchables k ⟨s.nextWatchableId, k, none, [hid]⟩
      handleStates := aset s.handleStates hid h
      nextWatchableId := s.nextWatchableId + 1
      nextHandleId := hid + 1 })

/-- Modelled from the spec: one non-blocking coalescing send of the
Watchable update loop to a single handle — the handle's value reference is
refreshed and its single notification slot is set; closed handles and
handles already holding the value are skipped (spec sections 4.2 and 4.3,
design note on the coalescing channel). -/
def deliverOne (v : VersionedValue) (hs : List (Nat × HandleState)) (hid : Nat) :
    List (Nat × HandleState) :=
  match alookup hs hid with
  | none => hs
  | some h =>
    if h.closed then hs
    else if h.current = some v then hs
    else aset hs hid { h with current := some v, notif := true }

/-- Broadcast of one observed value to a list of attached handles, one
non-blocking send per handle. -/
def deliver (v : VersionedValue) : List Nat → List (Nat × HandleState) →
    List (Nat × HandleState)
  | [], hs => hs
  | hid :: rest, hs => deliver v rest (deliverOne v hs hid)

/-- Modelled from the spec: one cycle of the Watchable's update-processing
task — it retrieves whatever latest state the backend offers for the key,
stores it as the Watchable's current value and broadcasts it to every
attached handle (spec section 4.2). -/
def updateTick (s : StoreState) (k : String) : StoreState :=
  match alookup s.watchables k with
  | none => s
  | some w =>
    match alookup s.backend k with
    | none => s
    | some v =>
      { s with
        watchables := aset s.watchables k { w with current := some v }
        handleStates := deliver v w.handles s.handleStates }

/-- Modelled from the spec: a consumer reading the handle's notification
channel, which clears the pending signal but not the value reference (spec
section 4.3). -/
def readNotification (s : StoreState) (hid : Nat) : StoreState :=
  match alookup s.handleStates hid with
  | none => s
  | some h => { s with handleStates := aset s.handleStates hid { h with notif := false } }

/-- Modelled from the spec: Close on a Watch Handle — idempotent; marks
the handle closed, detaches it from its Watchable and, when it was the
last attached handle, tears the Watchable down by removing it from the
registry (spec sections 4.3 and 4.4). -/
def closeHandle (s : StoreState) (hid : Nat) : StoreState :=
  match alookup s.handleStates hid with
  | none => s
  | some h =>
    if h.closed then s
    else
      let s1 : StoreState :=
        { s with handleStates := aset s.handleStates hid { h with closed := true } }
      match alookup s.watchables h.key with
      | none => s1
      | some w =>
        if w.handles.filter (fun x => decide (x ≠ hid)) = [] then
          { s1 with watchables := aremove s1.watchables h.key }
        else
          { s1 with watchables := aset s1.watchables h.key { w with handles := w.handles.filter (fun x => decide (x ≠ hid)) } }

/-- The events of the modelled system: the store operations, one cycle of
a Watchable's update task, a consumer reading a notification, and closing
a handle. -/
inductive Event where
  | eset (k p : String)
  | esetIfNotExists (k p : String)
  | echeckAndSet (k : String) (expected : Nat) (p : String)
  | ewatch (k : String)
  | etick (k : String)
  | eread (hid : Nat)
  | eclose (hid : Nat)

/-- One transition of the modelled system. -/
def step (e : Event) (s : StoreState) : StoreState :=
  match e with
  | .eset k p => (kvSet s k p).2
  | .esetIfNotExists k p => (setIfNotExists s k p).2
  | .echeckAndSet k n p => (checkAndSet s k n p).2
  | .ewatch k => (watch s k).2
  | .etick k => updateTick s k
  | .eread hid => readNotification s hid
  | .eclose hid => closeHandle s hid

/-- Current() of a handle: the most recently delivered value, none before
any observation (spec section 4.3). -/
def handleCurrent (s : StoreState) (hid : Nat) : Option VersionedValue :=
  match alookup s.handleStates hid with
  | some h => h.current
  | none => none

/-- Whether the handle's single-slot notification channel holds an unread
signal. -/
def handleNotif (s : StoreState) (hid : Nat) : Bool :=
  match alookup s.handleStates hid with
  | some h => h.notif
  | none => false

/-- Whether the handle is closed. -/
def handleClosed (s : StoreState) (hid : Nat) : Bool :=
  match alookup s.handleStates hid with
  | some h => h.closed
  | none => false

/-- The version carried by an optional value; 0 when absent. -/
def vOf : Option VersionedValue → Nat
  | some v => v.version
  | none => 0

/-- The version a handle observes through Current(); 0 before any
observation. -/
def obsVersion (s : StoreState) (hid : Nat) : Nat :=
  vOf (handleCurrent s hid)

/-- System invariant: handle ids are below the fresh-id counter and
pairwise distinct, every handle's observed version is at most the
backend's version for its key, and every registered Watchable carries its
registry key, a sub-counter instance id, and only attached handles that
exist and belong to its key. -/
def Inv (s : StoreState) : Prop :=
  (s.handleStates.map Prod.fst).Nodup ∧
    (∀ p ∈ s.handleStates, p.1 < s.nextHandleId ∧ vOf p.2.current ≤ bver s.backend p.2.key) ∧
    (∀ q ∈ s.watchables, q.2.key = q.1 ∧ q.2.id < s.nextWatchableId ∧
      ∀ hid ∈ q.2.handles, ∃ p ∈ s.handleStates, p.1 = hid ∧ p.2.key = q.1)

instance decidableInv (s : StoreState) : Decidable (Inv s) := by
  unfold Inv
  infer_instance

/-- The store with no backend data, no watchables and no handles. -/
def emptyStore : StoreState := ⟨[], [], [], 0, 0⟩

/-- N sequential Set calls on one key with payloads p 1, ..., p N. -/
def setN (s : StoreState) (k : String) (p : Nat → String) : Nat → StoreState
  | 0 => s
  | n + 1 => (kvSet (setN s k p n) k (p (n + 1))).2

/-- Looking up a key distinct from the filtered-out one is unaffected by
the filter underlying aset and aremove. -/
theorem alookup_filter_ne [DecidableEq α] (l : List (α × β)) (k k' : α) (h : k' ≠ k) :
    alookup (l.filter (fun p => decide (p.1 ≠ k))) k' = alookup l k' := by
  induction l with
  | nil => rfl
  | cons a rest ih =>
    rw [List.filter_cons]
    by_cases hk : a.1 = k
    · have hne : a.1 ≠ k' := fun hc => h (hc ▸ hk)
      rw [if_neg (by simp [hk]), ih]
      conv_rhs => rw [alookup]
      rw [if_neg hne]
    · rw [if_pos (by simpa using hk)]
      show alookup _ k' = _
      conv_lhs => rw [alookup]
      conv_rhs => rw [alookup]
      by_cases hk' : a.1 = k'
      · rw [if_pos hk', if_pos hk']
      · rw [if_neg hk', if_neg hk', ih]

/-- Lookup after aset at the written key. -/
theorem alookup_aset_self [DecidableEq α] (l : List (α × β)) (k : α) (v : β) :
    alookup (aset l k v) k = some v := by
  simp [aset, alookup]

/-- Lookup after aset at a different key. -/
theorem alookup_aset_ne [DecidableEq α] (l : List (α × β)) (k k' : α) (v : β) (h : k' ≠ k) :
    alookup (aset l k v) k' = alookup l k' := by
  simp only [aset, alookup, if_neg (fun hc : k = k' => h hc.symm)]
  exact alookup_filter_ne l k k' h

/-- Lookup after aremove at the removed key. -/
theorem alookup_aremove_self [DecidableEq α] (l : List (α × β)) (k : α) :
    alookup (aremove l k) k = none := by
  induction l with
  | nil => rfl
  | cons a rest ih =>
    by_cases hk : a.1 = k
    · simpa [aremove, List.filter_cons, hk] using ih
    · simpa [aremove, List.filter_cons, hk, alookup] using ih

/-- Lookup after aremove at a different key. -/
theorem alookup_aremove_ne [DecidableEq α] (l : List (α × β)) (k k' : α) (h : k' ≠ k) :
    alookup (aremove l k) k' = alookup l k' :=
  alookup_filter_ne l k k' h

/-- A successful lookup exhibits a member of the list. -/
theorem alookup_mem [DecidableEq α] (l : List (α × β)) (k : α) (v : β)
    (h : alookup l k = some v) : (k, v) ∈ l := by
  induction l with
  | nil => simp [alookup] at h
  | cons a rest ih =>
    obtain ⟨a1, a2⟩ := a
    simp only [alookup] at h
    by_cases hk : a1 = k
    · rw [if_pos hk, Option.some.injEq] at h
      subst hk; subst h
      exact List.mem_cons_self _ _
    · rw [if_neg hk] at h
      exact List.mem_cons_of_mem _ (ih h)

/-- With pairwise-distinct keys, membership determines the lookup. -/
theorem alookup_of_mem_nodup [DecidableEq α] (l : List (α × β)) (k : α) (v : β)
    (hnd : (l.map Prod.fst).Nodup) (h : (k, v) ∈ l) : alookup l k = some v := by
  induction l with
  | nil => simp at h
  | cons a rest ih =>
    simp only [List.map_cons, List.nodup_cons] at hnd
    rcases List.mem_cons.mp h with h1 | h1
    · simp [alookup, ← h1]
    · have hk : a.1 ≠ k := by
        intro hc
        exact hnd.1 (hc ▸ (List.mem_map.mpr ⟨(k, v), h1, rfl⟩))
      simp only [alookup, if_neg hk]
      exact ih hnd.2 h1

/-- Members of aset are the new binding or old members. -/
theorem mem_aset [DecidableEq α] (l : List (α × β)) (k : α) (v : β) (p : α × β)
    (h : p ∈ aset l k v) : p = (k, v) ∨ p ∈ l := by
  rcases List.mem_cons.mp h with h1 | h1
  · exact Or.inl h1
  · exact Or.inr (List.mem_filter.mp h1).1

/-- Members of aremove are old members. -/
theorem mem_aremove [DecidableEq α] (l : List (α × β)) (k : α) (p : α × β)
    (h : p ∈ aremove l k) : p ∈ l :=
  (List.mem_filter.mp h).1

/-- An old member with a key other than the written one survives aset. -/
theorem mem_aset_of_mem [DecidableEq α] (l : List (α × β)) (k : α) (v : β) (p : α × β)
    (hp : p ∈ l) (hne : p.1 ≠ k) : p ∈ aset l k v :=
  List.mem_cons_of_mem _ (List.mem_filter.mpr ⟨hp, by simpa using hne⟩)

/-- aset keeps the keys pairwise distinct. -/
theorem nodupkeys_aset [DecidableEq α] (l : List (α × β)) (k : α) (v : β)
    (h : (l.map Prod.fst).Nodup) : ((aset l k v).map Prod.fst).Nodup := by
  simp only [aset, List.map_cons, List.nodup_cons]
  constructor
  · intro hc
    rcases List.mem_map.mp hc with ⟨p, hp, hpk⟩
    exact (by simpa using (List.mem_filter.mp hp).2 : p.1 ≠ k) hpk
  · exact List.Nodup.sublist ((List.filter_sublist l).map Prod.fst) h

/-- aremove keeps the keys pairwise distinct. -/
theorem nodupkeys_aremove [DecidableEq α] (l : List (α × β)) (k : α)
    (h : (l.map Prod.fst).Nodup) : ((aremove l k).map Prod.fst).Nodup :=
  List.Nodup.sublist ((List.filter_sublist l).map Prod.fst) h

/-- Updating the current value and notification slot of an updated handle
again is a no-op. -/
theorem handleUpdate_idem (h : HandleState) (v : VersionedValue) :
    ({ { h with current := some v, notif := true } with
        current := some v, notif := true } : HandleState) =
      { h with current := some v, notif := true } := rfl

/-- Unfolding the delivery loop one id at a time. -/
theorem deliver_cons (v : VersionedValue) (a : Nat) (rest : List Nat)
    (hs : List (Nat × HandleState)) :
    deliver v (a :: rest) hs = deliver v rest (deliverOne v hs a) := rfl

/-- A send to an unknown handle id is a no-op. -/
theorem deliverOne_none (v : VersionedValue) (hs : List (Nat × HandleState)) (a : Nat)
    (hA : alookup hs a = none) : deliverOne v hs a = hs := by
  simp [deliverOne, hA]

/-- A send to a closed handle is a no-op. -/
theorem deliverOne_closed (v : VersionedValue) (hs : List (Nat × HandleState))
    (a : Nat) (h : HandleState) (hA : alookup hs a = some h) (hc : h.closed = true) :
    deliverOne v hs a = hs := by
  simp [deliverOne, hA, hc]

/-- A send to a handle already holding the value is a no-op. -/
theorem deliverOne_same (v : VersionedValue) (hs : List (Nat × HandleState))
    (a : Nat) (h : HandleState) (hA : alookup hs a = some h) (hc : h.closed = false)
    (hv : h.current = some v) : deliverOne v hs a = hs := by
  simp [deliverOne, hA, hc, hv]

/-- A send to an open handle not yet holding the value refreshes it and
sets its notification slot. -/
theorem deliverOne_update (v : VersionedValue) (hs : List (Nat × HandleState))
    (a : Nat) (h : HandleState) (hA : alookup hs a = some h) (hc : h.closed = false)
    (hv : ¬ h.current = some v) :
    deliverOne v hs a = aset hs a { h with current := some v, notif := true } := by
  simp [deliverOne, hA, hc, hv]

/-- A single send leaves a handle unchanged or refreshes an existing open
handle with the delivered value. -/
theorem deliverOne_lookup (v : VersionedValue) (hs : List (Nat × HandleState))
    (a hid : Nat) :
    alookup (deliverOne v hs a) hid = alookup hs hid ∨
      (hid = a ∧ ∃ h, alookup hs hid = some h ∧ h.closed = false ∧
        alookup (deliverOne v hs a) hid = some { h with current := some v, notif := true }) := by
  rcases hA : alookup hs a with _ | h
  · rw [deliverOne_none v hs a hA]
    exact Or.inl rfl
  · by_cases hc : h.closed = true
    · rw [deliverOne_closed v hs a h hA hc]
      exact Or.inl rfl
    · have hc' : h.closed = false := by simpa using hc
      by_cases hv : h.current = some v
      · rw [deliverOne_same v hs a h hA hc' hv]
        exact Or.inl rfl
      · rw [deliverOne_update v hs a h hA hc' hv]
        by_cases hha : hid = a
        · subst hha
          exact Or.inr ⟨rfl, h, hA, hc', alookup_aset_self _ _ _⟩
        · exact Or.inl (alookup_aset_ne _ _ _ _ hha)

/-- The delivery loop leaves a handle unchanged or refreshes an existing
open handle that occurs in the id list with the delivered value. -/
theorem deliver_lookup (v : VersionedValue) (ids : List Nat)
    (hs : List (Nat × HandleState)) (hid : Nat) :
    alookup (deliver v ids hs) hid = alookup hs hid ∨
      (hid ∈ ids ∧ ∃ h, alookup hs hid = some h ∧ h.closed = false ∧
        alookup (deliver v ids hs) hid = some { h with current := some v, notif := true }) := by
  induction ids generalizing hs with
  | nil => exact Or.inl rfl
  | cons a rest ih =>
    rw [deliver_cons]
    rcases ih (deliverOne v hs a) with hu | ⟨hmem, h2, hh2, hcl2, hres⟩
    · rcases deliverOne_lookup v hs a hid with h1 | ⟨hha, h, hh, hcl, hres1⟩
      · exact Or.inl (hu.trans h1)
      · exact Or.inr ⟨hha ▸ List.mem_cons_self a rest, h, hh, hcl, hu.trans hres1⟩
    · rcases deliverOne_lookup v hs a hid with h1 | ⟨hha, h, hh, hcl, hres1⟩
      · rw [h1] at hh2
        exact Or.inr ⟨List.mem_cons_of_mem _ hmem, h2, hh2, hcl2, hres⟩
      · rw [hres1] at hh2
        injection hh2 with hx
        subst hx
        refine Or.inr ⟨hha ▸ List.mem_cons_self a rest, h, hh, hcl, ?_⟩
        rw [hres, handleUpdate_idem]

/-- A handle whose id is not in the delivery list is untouched by the
delivery loop. -/
theorem deliver_lookup_not_mem (v : VersionedValue) (ids : List Nat)
    (hs : List (Nat × HandleState)) (hid : Nat) (hmem : hid ∉ ids) :
    alookup (deliver v ids hs) hid = alookup hs hid := by
  induction ids generalizing hs with
  | nil => rfl
  | cons a rest ih =>
    have hna : hid ≠ a := fun hc => hmem (hc ▸ List.mem_cons_self a rest)
    have hnr : hid ∉ rest := fun hc => hmem (List.mem_cons_of_mem _ hc)
    rw [deliver_cons, ih _ hnr]
    rcases hA : alookup hs a with _ | h
    · rw [deliverOne_none v hs a hA]
    · by_cases hc : h.closed = true
      · rw [deliverOne_closed v hs a h hA hc]
      · have hc' : h.closed = false := by simpa using hc
        by_cases hv : h.current = some v
        · rw [deliverOne_same v hs a h hA hc' hv]
        · rw [deliverOne_update v hs a h hA hc' hv]
          exact alookup_aset_ne _ _ _ _ hna

/-- Members after a single send are old members or the refreshed version
of an existing open handle. -/
theorem mem_deliverOne (v : VersionedValue) (hs : List (Nat × HandleState))
    (a : Nat) (p : Nat × HandleState) (hp : p ∈ deliverOne v hs a) :
    p ∈ hs ∨ ∃ h, p = (a, { h with current := some v, notif := true }) ∧
      alookup hs a = some h := by
  rcases hA : alookup hs a with _ | h
  · rw [deliverOne_none v hs a hA] at hp
    exact Or.inl hp
  · by_cases hc : h.closed = true
    · rw [deliverOne_closed v hs a h hA hc] at hp
      exact Or.inl hp
    · have hc' : h.closed = false := by simpa using hc
      by_cases hv : h.current = some v
      · rw [deliverOne_same v hs a h hA hc' hv] at hp
        exact Or.inl hp
      · rw [deliverOne_update v hs a h hA hc' hv] at hp
        rcases mem_aset _ _ _ _ hp with h1 | h1
        · exact Or.inr ⟨h, h1, rfl⟩
        · exact Or.inl h1

/-- Members after the delivery loop are old members or refreshed versions
of handles from the id list. -/
theorem mem_deliver (v : VersionedValue) (ids : List Nat)
    (hs : List (Nat × HandleState)) (p : Nat × HandleState)
    (hp : p ∈ deliver v ids hs) :
    p ∈ hs ∨ ∃ hid h, p = (hid, { h with current := some v, notif := true }) ∧
      alookup hs hid = some h ∧ hid ∈ ids := by
  induction ids generalizing hs with
  | nil => exact Or.inl hp
  | cons a rest ih =>
    rw [deliver_cons] at hp
    rcases ih (deliverOne v hs a) hp with h1 | ⟨hid, h2, hpe, hh2, hmem⟩
    · rcases mem_deliverOne v hs a p h1 with h2 | ⟨h, hpe, hA⟩
      · exact Or.inl h2
      · exact Or.inr ⟨a, h, hpe, hA, List.mem_cons_self a rest⟩
    · rcases deliverOne_lookup v hs a hid with h3 | ⟨hha, h, hh, hcl, hres1⟩
      · rw [h3] at hh2
        exact Or.inr ⟨hid, h2, hpe, hh2, List.mem_cons_of_mem _ hmem⟩
      · rw [hres1] at hh2
        injection hh2 with hx
        subst hx
        subst hha
        exact Or.inr ⟨hid, h, by rw [hpe, handleUpdate_idem], hh, List.mem_cons_self _ _⟩

/-- The delivery loop keeps the handle ids pairwise distinct. -/
theorem deliver_nodupkeys (v : VersionedValue) (ids : List Nat)
    (hs : List (Nat × HandleState)) (h : (hs.map Prod.fst).Nodup) :
    ((deliver v ids hs).map Prod.fst).Nodup := by
  induction ids generalizing hs with
  | nil => exact h
  | cons a rest ih =>
    rw [deliver_cons]
    refine ih (deliverOne v hs a) ?_
    rcases hA : alookup hs a with _ | hh
    · rw [deliverOne_none v hs a hA]
      exact h
    · by_cases hc : hh.closed = true
      · rw [deliverOne_closed v hs a hh hA hc]
        exact h
      · have hc' : hh.closed = false := by simpa using hc
        by_cases hv : hh.current = some v
        · rw [deliverOne_same v hs a hh hA hc' hv]
          exact h
        · rw [deliverOne_update v hs a hh hA hc' hv]
          exact nodupkeys_aset _ _ _ h

/-- Backend version after a backend write. -/
theorem bver_aset (b : List (String × VersionedValue)) (k k' : String)
    (v : VersionedValue) :
    bver (aset b k v) k' = if k' = k then v.version else bver b k' := by
  by_cases h : k' = k
  · subst h
    simp [bver, alookup_aset_self]
  · simp [bver, h, alookup_aset_ne _ _ _ _ h]

/-- Watch reduction when a live Watchable exists: the new handle attaches
to it. -/
theorem watch_eq_attach (s : StoreState) (k : String) (w : Watchable)
    (hA : alookup s.watchables k = some w) :
    watch s k = (s.nextHandleId, { s with
      watchables := aset s.watchables k { w with handles := s.nextHandleId :: w.handles }
      handleStates := aset s.handleStates s.nextHandleId ⟨k, none, false, false⟩
      nextHandleId := s.nextHandleId + 1 }) := by
  simp [watch, hA]

/-- Watch reduction when no live Watchable exists: a fresh Watchable is
created and registered. -/
theorem watch_eq_create (s : StoreState) (k : String)
    (hA : alookup s.watchables k = none) :
    watch s k = (s.nextHandleId, { s with
      watchables := aset s.watchables k ⟨s.nextWatchableId, k, none, [s.nextHandleId]⟩
      handleStates := aset s.handleStates s.nextHandleId ⟨k, none, false, false⟩
      nextWatchableId := s.nextWatchableId + 1
      nextHandleId := s.nextHandleId + 1 }) := by
  simp [watch, hA]

/-- The update cycle is a no-op without a live Watchable for the key. -/
theorem updateTick_eq_no_watchable (s : StoreState) (k : String)
    (hA : alookup s.watchables k = none) : updateTick s k = s := by
  simp [updateTick, hA]

/-- The update cycle is a no-op while the backend has no value for the
key. -/
theorem updateTick_eq_no_value (s : StoreState) (k : String) (w : Watchable)
    (hA : alookup s.watchables k = some w) (hB : alookup s.backend k = none) :
    updateTick s k = s := by
  simp [updateTick, hA, hB]

/-- The update cycle stores the backend's value in the Watchable and
broadcasts it to the attached handles. -/
theorem updateTick_eq_update (s : StoreState) (k : String) (w : Watchable)
    (v : VersionedValue) (hA : alookup s.watchables k = some w)
    (hB : alookup s.backend k = some v) :
    updateTick s k = { s with
      watchables := aset s.watchables k { w with current := some v }
      handleStates := deliver v w.handles s.handleStates } := by
  simp [updateTick, hA, hB]

/-- Reading a notification of an unknown handle is a no-op. -/
theorem readNotification_eq_none (s : StoreState) (hid : Nat)
    (hA : alookup s.handleStates hid = none) : readNotification s hid = s := by
  simp [readNotification, hA]

/-- Reading a notification clears the pending signal and nothing else. -/
theorem readNotification_eq (s : StoreState) (hid : Nat) (h : HandleState)
    (hA : alookup s.handleStates hid = some h) :
    readNotification s hid =
      { s with handleStates := aset s.handleStates hid { h with notif := false } } := by
  simp [readNotification, hA]

/-- Closing an unknown handle is a no-op. -/
theorem closeHandle_eq_unknown (s : StoreState) (hid : Nat)
    (hA : alookup s.handleStates hid = none) : closeHandle s hid = s := by
  simp [closeHandle, hA]

/-- Closing is idempotent: closing an already-closed handle is a no-op. -/
theorem closeHandle_eq_closed (s : StoreState) (hid : Nat) (h : HandleState)
    (hA : alookup s.handleStates hid = some h) (hc : h.closed = true) :
    closeHandle s hid = s := by
  simp [closeHandle, hA, hc]

/-- Closing when the handle's Watchable is already gone only marks the
handle closed. -/
theorem closeHandle_eq_no_watchable (s : StoreState) (hid : Nat) (h : HandleState)
    (hA : alookup s.handleStates hid = some h) (hc : h.closed = false)
    (hW : alookup s.watchables h.key = none) :
    closeHandle s hid =
      { s with handleStates := aset s.handleStates hid { h with closed := true } } := by
  simp [closeHandle, hA, hc, hW]

/-- Closing the last attached handle tears the Watchable down: it is
removed from the registry. -/
theorem closeHandle_eq_last (s : StoreState) (hid : Nat) (h : HandleState)
    (w : Watchable) (hA : alookup s.handleStates hid = some h) (hc : h.closed = false)
    (hW : alookup s.watchables h.key = some w)
    (hrem : w.handles.filter (fun x => decide (x ≠ hid)) = []) :
    closeHandle s hid = { s with
      handleStates := aset s.handleStates hid { h with closed := true }
      watchables := aremove s.watchables h.key } := by
  simp only [closeHandle, hA, hc, hW, Bool.false_eq_true, if_false, hrem, if_pos]

/-- Closing a non-last handle detaches it, leaving the Watchable alive for
the remaining handles. -/
theorem closeHandle_eq_detach (s : StoreState) (hid : Nat) (h : HandleState)
    (w : Watchable) (hA : alookup s.handleStates hid = some h) (hc : h.closed = false)
    (hW : alookup s.watchables h.key = some w)
    (hrem : w.handles.filter (fun x => decide (x ≠ hid)) ≠ []) :
    closeHandle s hid = { s with
      handleStates := aset s.handleStates hid { h with closed := true }
      watchables := aset s.watchables h.key
        { w with handles := w.handles.filter (fun x => decide (x ≠ hid)) } } := by
  simp only [closeHandle, hA, hc, hW, Bool.false_eq_true, if_false, if_neg hrem]

/-- SetIfNotExists reduction on a present key. -/
theorem setIfNotExists_eq_present (s : StoreState) (k p : String) (v : VersionedValue)
    (hA : alookup s.backend k = some v) :
    setIfNotExists s k p = (Except.error KVError.alreadyExists, s) := by
  simp [setIfNotExists, hA]

/-- SetIfNotExists reduction on an absent key. -/
theorem setIfNotExists_eq_absent (s : StoreState) (k p : String)
    (hA : alookup s.backend k = none) :
    setIfNotExists s k p =
      (Except.ok 1, { s with backend := aset s.backend k ⟨p, 1⟩ }) := by
  simp [setIfNotExists, hA]

/-- Growing the backend versions pointwise preserves the invariant. -/
theorem inv_backend_grow (s : StoreState) (b2 : List (String × VersionedValue))
    (hg : ∀ k, bver s.backend k ≤ bver b2 k) (hInv : Inv s) :
    Inv { s with backend := b2 } := by
  obtain ⟨hnd, hH, hW⟩ := hInv
  exact ⟨hnd, fun p hp => ⟨(hH p hp).1, le_trans (hH p hp).2 (hg p.2.key)⟩, hW⟩

/-- Set preserves the invariant. -/
theorem inv_kvSet (s : StoreState) (k pl : String) (hInv : Inv s) :
    Inv (kvSet s k pl).2 := by
  refine inv_backend_grow s _ (fun k2 => ?_) hInv
  rw [bver_aset]
  by_cases h : k2 = k
  · rw [if_pos h, h]
    show bver s.backend k ≤ bver s.backend k + 1
    omega
  · rw [if_neg h]

/-- SetIfNotExists preserves the invariant. -/
theorem inv_setIfNotExists (s : StoreState) (k pl : String) (hInv : Inv s) :
    Inv (setIfNotExists s k pl).2 := by
  rcases hA : alookup s.backend k with _ | v
  · rw [setIfNotExists_eq_absent s k pl hA]
    refine inv_backend_grow s _ (fun k2 => ?_) hInv
    rw [bver_aset]
    by_cases h : k2 = k
    · rw [if_pos h, h]
      simp [bver, hA]
    · rw [if_neg h]
  · rw [setIfNotExists_eq_present s k pl v hA]
    exact hInv

/-- CheckAndSet preserves the invariant. -/
theorem inv_checkAndSet (s : StoreState) (k : String) (e0 : Nat) (pl : String)
    (hInv : Inv s) : Inv (checkAndSet s k e0 pl).2 := by
  by_cases hc : bver s.backend k = e0
  · have hred : checkAndSet s k e0 pl =
        (Except.ok (e0 + 1), { s with backend := aset s.backend k ⟨pl, e0 + 1⟩ }) := by
      simp [checkAndSet, hc]
    rw [hred]
    refine inv_backend_grow s _ (fun k2 => ?_) hInv
    rw [bver_aset]
    by_cases h : k2 = k
    · rw [if_pos h, h, hc]
      show e0 ≤ e0 + 1
      omega
    · rw [if_neg h]
  · have hred : checkAndSet s k e0 pl = (Except.error KVError.versionMismatch, s) := by
      simp [checkAndSet, hc]
    rw [hred]
    exact hInv

/-- A looked-up handle attached to a Watchable carries the Watchable's
key. -/
theorem attached_key (s : StoreState) (kk : String) (w : Watchable)
    (hnd : (s.handleStates.map Prod.fst).Nodup)
    (hatt : ∀ hid2 ∈ w.handles, ∃ p ∈ s.handleStates, p.1 = hid2 ∧ p.2.key = kk)
    (hid : Nat) (hmem : hid ∈ w.handles) (h : HandleState)
    (hh : alookup s.handleStates hid = some h) : h.key = kk := by
  obtain ⟨pp, hpp, hpe, hpk⟩ := hatt hid hmem
  have hpp2 : (hid, pp.2) ∈ s.handleStates := by
    rw [← hpe]
    exact hpp
  have hl : alookup s.handleStates hid = some pp.2 := alookup_of_mem_nodup _ _ _ hnd hpp2
  rw [hh] at hl
  injection hl with hx
  rw [hx]
  exact hpk

/-- The delivery loop preserves the existence and key of attached handle
entries. -/
theorem deliver_attachment (v : VersionedValue) (ids : List Nat)
    (hs : List (Nat × HandleState)) (hnd : (hs.map Prod.fst).Nodup)
    (hid : Nat) (pp : Nat × HandleState) (hpp : pp ∈ hs) (hpe : pp.1 = hid) :
    ∃ q ∈ deliver v ids hs, q.1 = hid ∧ q.2.key = pp.2.key := by
  have hpp2 : (hid, pp.2) ∈ hs := by
    rw [← hpe]
    exact hpp
  have hl : alookup hs hid = some pp.2 := alookup_of_mem_nodup _ _ _ hnd hpp2
  rcases deliver_lookup v ids hs hid with h1 | ⟨_, h, hh, hcl, hres⟩
  · exact ⟨(hid, pp.2), alookup_mem _ _ _ (h1.trans hl), rfl, rfl⟩
  · have hx : h = pp.2 := by
      rw [hh] at hl
      injection hl
    refine ⟨(hid, { h with current := some v, notif := true }),
      alookup_mem _ _ _ hres, rfl, ?_⟩
    show h.key = pp.2.key
    rw [hx]

/-- Updating one handle entry without changing its key preserves the
existence and key of attached handle entries. -/
theorem aset_attachment (hs : List (Nat × HandleState))
    (hnd : (hs.map Prod.fst).Nodup) (hid0 : Nat) (h0 h1 : HandleState)
    (hl0 : alookup hs hid0 = some h0) (hk : h1.key = h0.key)
    (hid : Nat) (pp : Nat × HandleState) (hpp : pp ∈ hs) (hpe : pp.1 = hid) :
    ∃ q ∈ aset hs hid0 h1, q.1 = hid ∧ q.2.key = pp.2.key := by
  by_cases he : hid = hid0
  · subst he
    have hpp2 : (hid, pp.2) ∈ hs := by
      rw [← hpe]
      exact hpp
    have hl : alookup hs hid = some pp.2 := alookup_of_mem_nodup _ _ _ hnd hpp2
    rw [hl0] at hl
    injection hl with hx
    refine ⟨(hid, h1), List.mem_cons_self _ _, rfl, ?_⟩
    show h1.key = pp.2.key
    rw [hk, hx]
  · exact ⟨pp, mem_aset_of_mem _ _ _ _ hpp (by rw [hpe]; exact he), hpe, rfl⟩

/-- Watch preserves the invariant. -/
theorem inv_watch (s : StoreState) (k : String) (hInv : Inv s) : Inv (watch s k).2 := by
  obtain ⟨hnd, hH, hW⟩ := hInv
  have hfresh : ∀ pp ∈ s.handleStates, pp.1 ≠ s.nextHandleId :=
    fun pp hpp => Nat.ne_of_lt (hH pp hpp).1
  rcases hA : alookup s.watchables k with _ | w
  · rw [watch_eq_create s k hA]
    refine ⟨nodupkeys_aset _ _ _ hnd, ?_, ?_⟩
    · intro p hp
      rcases mem_aset _ _ _ _ hp with h1 | h1
      · rw [h1]
        exact ⟨Nat.lt_succ_self _, by simp [vOf]⟩
      · exact ⟨Nat.lt_succ_of_lt (hH p h1).1, (hH p h1).2⟩
    · intro q hq
      rcases mem_aset _ _ _ _ hq with h1 | h1
      · rw [h1]
        refine ⟨rfl, Nat.lt_succ_self _, ?_⟩
        intro hid hhid
        rw [List.mem_singleton] at hhid
        subst hhid
        exact ⟨(s.nextHandleId, ⟨k, none, false, false⟩), List.mem_cons_self _ _, rfl, rfl⟩
      · obtain ⟨hk1, hk2, hk3⟩ := hW q h1
        refine ⟨hk1, Nat.lt_succ_of_lt hk2, ?_⟩
        intro hid hhid
        obtain ⟨pp, hpp, hpe, hpk⟩ := hk3 hid hhid
        exact ⟨pp, mem_aset_of_mem _ _ _ _ hpp (hfresh pp hpp), hpe, hpk⟩
  · rw [watch_eq_attach s k w hA]
    have hwmem := alookup_mem _ _ _ hA
    obtain ⟨hwk, hwid, hwatt⟩ := hW _ hwmem
    refine ⟨nodupkeys_aset _ _ _ hnd, ?_, ?_⟩
    · intro p hp
      rcases mem_aset _ _ _ _ hp with h1 | h1
      · rw [h1]
        exact ⟨Nat.lt_succ_self _, by simp [vOf]⟩
      · exact ⟨Nat.lt_succ_of_lt (hH p h1).1, (hH p h1).2⟩
    · intro q hq
      rcases mem_aset _ _ _ _ hq with h1 | h1
      · rw [h1]
        refine ⟨hwk, hwid, ?_⟩
        intro hid hhid
        rcases List.mem_cons.mp hhid with h2 | h2
        · subst h2
          exact ⟨(s.nextHandleId, ⟨k, none, false, false⟩), List.mem_cons_self _ _, rfl, rfl⟩
        · obtain ⟨pp, hpp, hpe, hpk⟩ := hwatt hid h2
          exact ⟨pp, mem_aset_of_mem _ _ _ _ hpp (hfresh pp hpp), hpe, hpk⟩
      · obtain ⟨hk1, hk2, hk3⟩ := hW q h1
        refine ⟨hk1, hk2, ?_⟩
        intro hid hhid
        obtain ⟨pp, hpp, hpe, hpk⟩ := hk3 hid hhid
        exact ⟨pp, mem_aset_of_mem _ _ _ _ hpp (hfresh pp hpp), hpe, hpk⟩

/-- The update cycle preserves the invariant. -/
theorem inv_updateTick (s : StoreState) (k : String) (hInv : Inv s) :
    Inv (updateTick s k) := by
  obtain ⟨hnd, hH, hW⟩ := hInv
  rcases hA : alookup s.watchables k with _ | w
  · rw [updateTick_eq_no_watchable s k hA]
    exact ⟨hnd, hH, hW⟩
  · rcases hB : alookup s.backend k with _ | v
    · rw [updateTick_eq_no_value s k w hA hB]
      exact ⟨hnd, hH, hW⟩
    · rw [updateTick_eq_update s k w v hA hB]
      have hwmem := alookup_mem _ _ _ hA
      obtain ⟨hwk, hwid, hwatt⟩ := hW _ hwmem
      refine ⟨deliver_nodupkeys _ _ _ hnd, ?_, ?_⟩
      · intro p hp
        rcases mem_deliver _ _ _ _ hp with h1 | ⟨hid, h, hpe, hh, hmem⟩
        · exact hH p h1
        · rw [hpe]
          have hhm := alookup_mem _ _ _ hh
          have hkey : h.key = k := attached_key s k w hnd hwatt hid hmem h hh
          refine ⟨(hH _ hhm).1, ?_⟩
          show vOf (some v) ≤ bver s.backend h.key
          rw [hkey]
          simp [vOf, bver, hB]
      · intro q hq
        rcases mem_aset _ _ _ _ hq with h1 | h1
        · rw [h1]
          refine ⟨hwk, hwid, ?_⟩
          intro hid hhid
          obtain ⟨pp, hpp, hpe, hpk⟩ := hwatt hid hhid
          obtain ⟨qq, hqq, hqe, hqk⟩ :=
            deliver_attachment v w.handles s.handleStates hnd hid pp hpp hpe
          exact ⟨qq, hqq, hqe, by rw [hqk]; exact hpk⟩
        · obtain ⟨hk1, hk2, hk3⟩ := hW q h1
          refine ⟨hk1, hk2, ?_⟩
          intro hid hhid
          obtain ⟨pp, hpp, hpe, hpk⟩ := hk3 hid hhid
          obtain ⟨qq, hqq, hqe, hqk⟩ :=
            deliver_attachment v w.handles s.handleStates hnd hid pp hpp hpe
          exact ⟨qq, hqq, hqe, by rw [hqk]; exact hpk⟩

/-- Reading a notification preserves the invariant. -/
theorem inv_readNotification (s : StoreState) (hid : Nat) (hInv : Inv s) :
    Inv (readNotification s hid) := by
  obtain ⟨hnd, hH, hW⟩ := hInv
  rcases hA : alookup s.handleStates hid with _ | h
  · rw [readNotification_eq_none s hid hA]
    exact ⟨hnd, hH, hW⟩
  · rw [readNotification_eq s hid h hA]
    have hhm := alookup_mem _ _ _ hA
    refine ⟨nodupkeys_aset _ _ _ hnd, ?_, ?_⟩
    · intro p hp
      rcases mem_aset _ _ _ _ hp with h1 | h1
      · rw [h1]
        exact ⟨(hH _ hhm).1, (hH _ hhm).2⟩
      · exact hH p h1
    · intro q hq
      obtain ⟨hk1, hk2, hk3⟩ := hW q hq
      refine ⟨hk1, hk2, ?_⟩
      intro hid2 hhid2
      obtain ⟨pp, hpp, hpe, hpk⟩ := hk3 hid2 hhid2
      obtain ⟨qq, hqq, hqe, hqk⟩ :=
        aset_attachment s.handleStates hnd hid h { h with notif := false } hA rfl hid2 pp hpp hpe
      exact ⟨qq, hqq, hqe, by rw [hqk]; exact hpk⟩

/-- Closing a handle preserves the invariant. -/
theorem inv_closeHandle (s : StoreState) (hid : Nat) (hInv : Inv s) :
    Inv (closeHandle s hid) := by
  obtain ⟨hnd, hH, hW⟩ := hInv
  rcases hA : alookup s.handleStates hid with _ | h
  · rw [closeHandle_eq_unknown s hid hA]
    exact ⟨hnd, hH, hW⟩
  · by_cases hc : h.closed = true
    · rw [closeHandle_eq_closed s hid h hA hc]
      exact ⟨hnd, hH, hW⟩
    · have hc' : h.closed = false := by simpa using hc
      have hhm := alookup_mem _ _ _ hA
      have hHS : ∀ p ∈ aset s.handleStates hid { h with closed := true },
          p.1 < s.nextHandleId ∧ vOf p.2.current ≤ bver s.backend p.2.key := by
        intro p hp
        rcases mem_aset _ _ _ _ hp with h1 | h1
        · rw [h1]
          exact ⟨(hH _ hhm).1, (hH _ hhm).2⟩
        · exact hH p h1
      have hATT : ∀ (kk : String) (ids : List Nat),
          (∀ hid2 ∈ ids, ∃ p ∈ s.handleStates, p.1 = hid2 ∧ p.2.key = kk) →
          ∀ hid2 ∈ ids, ∃ p ∈ aset s.handleStates hid { h with closed := true },
            p.1 = hid2 ∧ p.2.key = kk := by
        intro kk ids hids hid2 hhid2
        obtain ⟨pp, hpp, hpe, hpk⟩ := hids hid2 hhid2
        obtain ⟨qq, hqq, hqe, hqk⟩ :=
          aset_attachment s.handleStates hnd hid h { h with closed := true } hA rfl hid2 pp hpp hpe
        exact ⟨qq, hqq, hqe, by rw [hqk]; exact hpk⟩
      rcases hWk : alookup s.watchables h.key with _ | w
      · rw [closeHandle_eq_no_watchable s hid h hA hc' hWk]
        refine ⟨nodupkeys_aset _ _ _ hnd, hHS, ?_⟩
        intro q hq
        obtain ⟨hk1, hk2, hk3⟩ := hW q hq
        exact ⟨hk1, hk2, hATT q.1 q.2.handles hk3⟩
      · by_cases hrem : w.handles.filter (fun x => decide (x ≠ hid)) = []
        · rw [closeHandle_eq_last s hid h w hA hc' hWk hrem]
          refine ⟨nodupkeys_aset _ _ _ hnd, hHS, ?_⟩
          intro q hq
          have hq2 := mem_aremove _ _ _ hq
          obtain ⟨hk1, hk2, hk3⟩ := hW q hq2
          exact ⟨hk1, hk2, hATT q.1 q.2.handles hk3⟩
        · rw [closeHandle_eq_detach s hid h w hA hc' hWk hrem]
          refine ⟨nodupkeys_aset _ _ _ hnd, hHS, ?_⟩
          intro q hq
          rcases mem_aset _ _ _ _ hq with h1 | h1
          · rw [h1]
            have hwmem := alookup_mem _ _ _ hWk
            obtain ⟨hk1, hk2, hk3⟩ := hW _ hwmem
            refine ⟨hk1, hk2, ?_⟩
            intro hid2 hhid2
            have hhid2m : hid2 ∈ w.handles := (List.mem_filter.mp hhid2).1
            exact hATT h.key w.handles hk3 hid2 hhid2m
          · obtain ⟨hk1, hk2, hk3⟩ := hW q h1
            exact ⟨hk1, hk2, hATT q.1 q.2.handles hk3⟩

/-- Every event of the modelled system preserves the invariant. -/
theorem inv_step (e : Event) (s : StoreState) (hInv : Inv s) : Inv (step e s) := by
  cases e with
  | eset k p => exact inv_kvSet s k p hInv
  | esetIfNotExists k p => exact inv_setIfNotExists s k p hInv
  | echeckAndSet k n p => exact inv_checkAndSet s k n p hInv
  | ewatch k => exact inv_watch s k hInv
  | etick k => exact inv_updateTick s k hInv
  | eread hid => exact inv_readNotification s hid hInv
  | eclose hid => exact inv_closeHandle s hid hInv

/-- The fresh handle id returned by Watch. -/
theorem watch_fst (s : StoreState) (k : String) : (watch s k).1 = s.nextHandleId := by
  rcases hA : alookup s.watchables k with _ | w
  · rw [watch_eq_create s k hA]
  · rw [watch_eq_attach s k w hA]

/-- Watch does not touch the backend. -/
theorem watch_backend (s : StoreState) (k : String) :
    ((watch s k).2).backend = s.backend := by
  rcases hA : alookup s.watchables k with _ | w
  · rw [watch_eq_create s k hA]
  · rw [watch_eq_attach s k w hA]

/-- Watch registers exactly one fresh handle state. -/
theorem watch_handleStates (s : StoreState) (k : String) :
    ((watch s k).2).handleStates =
      aset s.handleStates s.nextHandleId ⟨k, none, false, false⟩ := by
  rcases hA : alookup s.watchables k with _ | w
  · rw [watch_eq_create s k hA]
  · rw [watch_eq_attach s k w hA]

/-- Watch bumps the fresh handle id counter. -/
theorem watch_nextHandleId (s : StoreState) (k : String) :
    ((watch s k).2).nextHandleId = s.nextHandleId + 1 := by
  rcases hA : alookup s.watchables k with _ | w
  · rw [watch_eq_create s k hA]
  · rw [watch_eq_attach s k w hA]

/-- Set does not touch the handle states. -/
theorem kvSet_handleStates (s : StoreState) (k p : String) :
    ((kvSet s k p).2).handleStates = s.handleStates := rfl

/-- Set does not touch the registry. -/
theorem kvSet_watchables (s : StoreState) (k p : String) :
    ((kvSet s k p).2).watchables = s.watchables := rfl

/-- SetIfNotExists does not touch the handle states. -/
theorem setIfNotExists_handleStates (s : StoreState) (k p : String) :
    ((setIfNotExists s k p).2).handleStates = s.handleStates := by
  rcases hA : alookup s.backend k with _ | v
  · rw [setIfNotExists_eq_absent s k p hA]
  · rw [setIfNotExists_eq_present s k p v hA]

/-- CheckAndSet does not touch the handle states. -/
theorem checkAndSet_handleStates (s : StoreState) (k : String) (e0 : Nat) (p : String) :
    ((checkAndSet s k e0 p).2).handleStates = s.handleStates := by
  by_cases hc : bver s.backend k = e0 <;> simp [checkAndSet, hc]

/-- Closing an open handle only marks its state closed, whatever happens
to the registry. -/
theorem closeHandle_handleStates (s : StoreState) (hid : Nat) (h : HandleState)
    (hA : alookup s.handleStates hid = some h) (hc : h.closed = false) :
    (closeHandle s hid).handleStates =
      aset s.handleStates hid { h with closed := true } := by
  rcases hWk : alookup s.watchables h.key with _ | w
  · rw [closeHandle_eq_no_watchable s hid h hA hc hWk]
  · by_cases hrem : w.handles.filter (fun x => decide (x ≠ hid)) = []
    · rw [closeHandle_eq_last s hid h w hA hc hWk hrem]
    · rw [closeHandle_eq_detach s hid h w hA hc hWk hrem]

/-- Closing a handle does not touch the backend. -/
theorem closeHandle_backend (s : StoreState) (hid : Nat) :
    (closeHandle s hid).backend = s.backend := by
  rcases hA : alookup s.handleStates hid with _ | h
  · rw [closeHandle_eq_unknown s hid hA]
  · by_cases hc : h.closed = true
    · rw [closeHandle_eq_closed s hid h hA hc]
    · have hc2 : h.closed = false := by simpa using hc
      rcases hWk : alookup s.watchables h.key with _ | w
      · rw [closeHandle_eq_no_watchable s hid h hA hc2 hWk]
      · by_cases hrem : w.handles.filter (fun x => decide (x ≠ hid)) = []
        · rw [closeHandle_eq_last s hid h w hA hc2 hWk hrem]
        · rw [closeHandle_eq_detach s hid h w hA hc2 hWk hrem]

/-- Closing a handle does not change the fresh-id counters. -/
theorem closeHandle_counters (s : StoreState) (hid : Nat) :
    (closeHandle s hid).nextWatchableId = s.nextWatchableId ∧
      (closeHandle s hid).nextHandleId = s.nextHandleId := by
  rcases hA : alookup s.handleStates hid with _ | h
  · rw [closeHandle_eq_unknown s hid hA]
    exact ⟨rfl, rfl⟩
  · by_cases hc : h.closed = true
    · rw [closeHandle_eq_closed s hid h hA hc]
      exact ⟨rfl, rfl⟩
    · have hc2 : h.closed = false := by simpa using hc
      rcases hWk : alookup s.watchables h.key with _ | w
      · rw [closeHandle_eq_no_watchable s hid h hA hc2 hWk]
        exact ⟨rfl, rfl⟩
      · by_cases hrem : w.handles.filter (fun x => decide (x ≠ hid)) = []
        · rw [closeHandle_eq_last s hid h w hA hc2 hWk hrem]
          exact ⟨rfl, rfl⟩
        · rw [closeHandle_eq_detach s hid h w hA hc2 hWk hrem]
          exact ⟨rfl, rfl⟩

/-- The observed version is determined by the handle's entry. -/
theorem obsVersion_of_lookup (s : StoreState) (hid : Nat) (h : HandleState)
    (hl : alookup s.handleStates hid = some h) : obsVersion s hid = vOf h.current := by
  unfold obsVersion handleCurrent
  rw [hl]

/-- The observed version of an unknown handle is 0. -/
theorem obsVersion_of_lookup_none (s : StoreState) (hid : Nat)
    (hl : alookup s.handleStates hid = none) : obsVersion s hid = 0 := by
  unfold obsVersion handleCurrent
  rw [hl]
  rfl

/-- States agreeing on a handle's entry agree on its observed version. -/
theorem obsVersion_congr (s1 s2 : StoreState) (hid : Nat)
    (h : alookup s2.handleStates hid = alookup s1.handleStates hid) :
    obsVersion s2 hid = obsVersion s1 hid := by
  unfold obsVersion handleCurrent
  rw [h]

/-- C7 core lemma: under the invariant, no event of the system decreases
the version a handle observes through Current(). -/
theorem obsVersion_step_le (e : Event) (s : StoreState) (hid : Nat) (hInv : Inv s) :
    obsVersion s hid ≤ obsVersion (step e s) hid := by
  obtain ⟨hnd, hH, hW⟩ := hInv
  cases e with
  | eset k p =>
    exact le_of_eq (obsVersion_congr s (kvSet s k p).2 hid
      (by rw [kvSet_handleStates])).symm
  | esetIfNotExists k p =>
    exact le_of_eq (obsVersion_congr s (setIfNotExists s k p).2 hid
      (by rw [setIfNotExists_handleStates])).symm
  | echeckAndSet k n p =>
    exact le_of_eq (obsVersion_congr s (checkAndSet s k n p).2 hid
      (by rw [checkAndSet_handleStates])).symm
  | ewatch k =>
    show obsVersion s hid ≤ obsVersion (watch s k).2 hid
    by_cases he : hid = s.nextHandleId
    · subst he
      have hnone : alookup s.handleStates s.nextHandleId = none := by
        rcases hl : alookup s.handleStates s.nextHandleId with _ | hh
        · rfl
        · exact absurd rfl (Nat.ne_of_lt (hH _ (alookup_mem _ _ _ hl)).1)
      rw [obsVersion_of_lookup_none s _ hnone]
      exact Nat.zero_le _
    · refine le_of_eq (obsVersion_congr s (watch s k).2 hid ?_).symm
      rw [watch_handleStates]
      exact alookup_aset_ne _ _ _ _ he
  | etick k =>
    show obsVersion s hid ≤ obsVersion (updateTick s k) hid
    rcases hA : alookup s.watchables k with _ | w
    · rw [updateTick_eq_no_watchable s k hA]
    · rcases hB : alookup s.backend k with _ | v
      · rw [updateTick_eq_no_value s k w hA hB]
      · have hts : (updateTick s k).handleStates = deliver v w.handles s.handleStates := by
          rw [updateTick_eq_update s k w v hA hB]
        rcases deliver_lookup v w.handles s.handleStates hid with h1 | ⟨hmem, h, hh, hcl, hres⟩
        · exact le_of_eq (obsVersion_congr s (updateTick s k) hid
            (by rw [hts]; exact h1)).symm
        · have e2 : obsVersion (updateTick s k) hid = v.version := by
            have hl2 : alookup (updateTick s k).handleStates hid =
                some { h with current := some v, notif := true } := by
              rw [hts]
              exact hres
            rw [obsVersion_of_lookup _ hid _ hl2]
            rfl
          rw [e2, obsVersion_of_lookup s hid h hh]
          obtain ⟨hwk, hwid, hwatt⟩ := hW _ (alookup_mem _ _ _ hA)
          have hkey : h.key = k := attached_key s k w hnd hwatt hid hmem h hh
          have h4 := (hH _ (alookup_mem _ _ _ hh)).2
          rw [hkey] at h4
          simpa [bver, hB] using h4
  | eread hid2 =>
    show obsVersion s hid ≤ obsVersion (readNotification s hid2) hid
    rcases hA : alookup s.handleStates hid2 with _ | h
    · rw [readNotification_eq_none s hid2 hA]
    · by_cases he : hid = hid2
      · subst he
        have e2 : alookup (readNotification s hid).handleStates hid =
            some { h with notif := false } := by
          rw [readNotification_eq s hid h hA]
          exact alookup_aset_self _ _ _
        rw [obsVersion_of_lookup s hid h hA, obsVersion_of_lookup _ hid _ e2]
      · refine le_of_eq (obsVersion_congr s (readNotification s hid2) hid ?_).symm
        rw [readNotification_eq s hid2 h hA]
        exact alookup_aset_ne _ _ _ _ he
  | eclose hid2 =>
    show obsVersion s hid ≤ obsVersion (closeHandle s hid2) hid
    rcases hA : alookup s.handleStates hid2 with _ | h
    · rw [closeHandle_eq_unknown s hid2 hA]
    · by_cases hc : h.closed = true
      · rw [closeHandle_eq_closed s hid2 h hA hc]
      · have hc2 : h.closed = false := by simpa using hc
        by_cases he : hid = hid2
        · subst he
          have e2 : alookup (closeHandle s hid).handleStates hid =
              some { h with closed := true } := by
            rw [closeHandle_handleStates s hid h hA hc2]
            exact alookup_aset_self _ _ _
          rw [obsVersion_of_lookup s hid h hA, obsVersion_of_lookup _ hid _ e2]
        · refine le_of_eq (obsVersion_congr s (closeHandle s hid2) hid ?_).symm
          rw [closeHandle_handleStates s hid2 h hA hc2]
          exact alookup_aset_ne _ _ _ _ he

/-- Iterated Set only touches the backend. -/
theorem setN_fields (s : StoreState) (k : String) (pf : Nat → String) (n : Nat) :
    (setN s k pf n).watchables = s.watchables ∧
      (setN s k pf n).handleStates = s.handleStates ∧
      (setN s k pf n).nextWatchableId = s.nextWatchableId ∧
      (setN s k pf n).nextHandleId = s.nextHandleId := by
  induction n with
  | zero => exact ⟨rfl, rfl, rfl, rfl⟩
  | succ n ih => exact ⟨ih.1, ih.2.1, ih.2.2.1, ih.2.2.2⟩

/-- After n sequential Sets the backend's version for the key has grown by
exactly n. -/
theorem setN_bver (s : StoreState) (k : String) (pf : Nat → String) (n : Nat) :
    bver (setN s k pf n).backend k = bver s.backend k + n := by
  induction n with
  | zero => rfl
  | succ n ih =>
    show bver (aset (setN s k pf n).backend k
      ⟨pf (n + 1), bver (setN s k pf n).backend k + 1⟩) k = _
    rw [bver_aset, if_pos rfl]
    show bver (setN s k pf n).backend k + 1 = bver s.backend k + (n + 1)
    rw [ih]
    omega

/-- After n sequential Sets (n at least 1) the backend holds the last
payload with version grown by n. -/
theorem setN_backend_lookup (s : StoreState) (k : String) (pf : Nat → String)
    (n : Nat) (hn : 1 ≤ n) :
    alookup (setN s k pf n).backend k = some ⟨pf n, bver s.backend k + n⟩ := by
  cases n with
  | zero => exact absurd hn (by omega)
  | succ m =>
    show alookup (aset (setN s k pf m).backend k
      ⟨pf (m + 1), bver (setN s k pf m).backend k + 1⟩) k = _
    rw [alookup_aset_self, setN_bver]
    rfl

/-- C3: CheckAndSet succeeds, returning expectedVersion + 1, exactly when
the backend's current version for the key (0 for a never-set key) equals
expectedVersion; otherwise it fails with VersionMismatch leaving the
state — stored value and version included — unchanged; in particular
CheckAndSet with expectedVersion 1 on a never-set key fails. -/
theorem checkAndSet_version_gate (s : StoreState) (k : String) (expected : Nat)
    (p : String) :
    ((checkAndSet s k expected p).1 = Except.ok (expected + 1) ↔
        bver s.backend k = expected) ∧
      (bver s.backend k ≠ expected →
        checkAndSet s k expected p = (Except.error KVError.versionMismatch, s)) ∧
      (alookup s.backend k = none →
        checkAndSet s k 1 p = (Except.error KVError.versionMismatch, s)) := by
  refine ⟨⟨fun hok => ?_, fun he => ?_⟩, fun hne => ?_, fun habs => ?_⟩
  · by_contra hne
    have hred : checkAndSet s k expected p =
        (Except.error KVError.versionMismatch, s) := by
      simp [checkAndSet, hne]
    rw [hred] at hok
    exact Except.noConfusion hok
  · simp [checkAndSet, he]
  · simp [checkAndSet, hne]
  · have h0 : bver s.backend k = 0 := by simp [bver, habs]
    have hne : bver s.backend k ≠ 1 := by omega
    simp [checkAndSet, hne]

/-- C3 witness: on the empty store, CheckAndSet with expected version 1
fails with VersionMismatch, and after a first write the comparison at the
stored version 1 succeeds with version 2. -/
theorem checkAndSet_version_gate_witness :
    checkAndSet emptyStore "foo" 1 "x" = (Except.error KVError.versionMismatch, emptyStore) ∧
      (checkAndSet (kvSet emptyStore "foo" "bar").2 "foo" 1 "x2").1 = Except.ok 2 :=
  ⟨(checkAndSet_version_gate emptyStore "foo" 1 "x").2.2 (by decide),
    ((checkAndSet_version_gate (kvSet emptyStore "foo" "bar").2 "foo" 1 "x2").1).mpr
      (by decide)⟩

/-- C4: Set returns the backend's version plus one, a subsequent Get
returns the just-written payload at that version, n iterated Sets grow the
version by exactly n, and on a fresh key the first Set returns 1, the n-th
Set leaves payload number n at version n, and the next Set returns
n + 1. -/
theorem set_version_sequence (s : StoreState) (k pl : String) (pf : Nat → String)
    (n : Nat) :
    (kvSet s k pl).1 = bver s.backend k + 1 ∧
      kvGet (kvSet s k pl).2 k = Except.ok ⟨pl, (kvSet s k pl).1⟩ ∧
      bver (setN s k pf n).backend k = bver s.backend k + n ∧
      (alookup s.backend k = none →
        (kvSet s k pl).1 = 1 ∧
          (1 ≤ n → kvGet (setN s k pf n) k = Except.ok ⟨pf n, n⟩) ∧
          (kvSet (setN s k pf n) k pl).1 = n + 1) := by
  refine ⟨rfl, ?_, setN_bver s k pf n, fun habs => ⟨?_, fun hn => ?_, ?_⟩⟩
  · show kvGet { s with backend := aset s.backend k ⟨pl, bver s.backend k + 1⟩ } k = _
    unfold kvGet
    rw [show ({ s with backend := aset s.backend k ⟨pl, bver s.backend k + 1⟩ } :
      StoreState).backend = aset s.backend k ⟨pl, bver s.backend k + 1⟩ from rfl]
    rw [alookup_aset_self]
    rfl
  · show bver s.backend k + 1 = 1
    simp [bver, habs]
  · unfold kvGet
    rw [setN_backend_lookup s k pf n hn]
    have h0 : bver s.backend k = 0 := by simp [bver, habs]
    rw [h0]
    rw [Nat.zero_add]
  · show bver (setN s k pf n).backend k + 1 = n + 1
    rw [setN_bver]
    have h0 : bver s.backend k = 0 := by simp [bver, habs]
    rw [h0, Nat.zero_add]

/-- C4 witness: on the empty store, two Sets return versions 1 and 2 and
Get then returns the second payload at version 2. -/
theorem set_version_sequence_witness :
    (kvSet emptyStore "foo" "bar1").1 = 1 ∧
      (kvSet (kvSet emptyStore "foo" "bar1").2 "foo" "bar2").1 = 2 ∧
      kvGet (kvSet (kvSet emptyStore "foo" "bar1").2 "foo" "bar2").2 "foo" =
        Except.ok ⟨"bar2", 2⟩ :=
  ⟨(set_version_sequence emptyStore "foo" "bar1" (fun _ => "bar1") 0).2.2.2
      (by decide) |>.1,
    by decide,
    (set_version_sequence (kvSet emptyStore "foo" "bar1").2 "foo" "bar2"
      (fun _ => "bar2") 0).2.1.trans (by rfl)⟩

/-- C5: SetIfNotExists succeeds exactly once per key — with version 1 when
the key has no value, after which the stored payload and version are in
place and every further SetIfNotExists fails with AlreadyExists leaving
the state unchanged; on a key that already has a value it fails the same
way. -/
theorem setIfNotExists_once (s : StoreState) (k pl pl2 : String) :
    (alookup s.backend k = none →
        (setIfNotExists s k pl).1 = Except.ok 1 ∧
          kvGet (setIfNotExists s k pl).2 k = Except.ok ⟨pl, 1⟩ ∧
          setIfNotExists (setIfNotExists s k pl).2 k pl2 =
            (Except.error KVError.alreadyExists, (setIfNotExists s k pl).2)) ∧
      (∀ v, alookup s.backend k = some v →
        setIfNotExists s k pl = (Except.error KVError.alreadyExists, s)) := by
  constructor
  · intro habs
    have hred := setIfNotExists_eq_absent s k pl habs
    have hlook : alookup ((setIfNotExists s k pl).2).backend k = some ⟨pl, 1⟩ := by
      rw [hred]
      exact alookup_aset_self _ _ _
    refine ⟨by rw [hred], ?_, ?_⟩
    · unfold kvGet
      rw [hlook]
    · rw [setIfNotExists_eq_present _ k pl2 _ hlook]
  · intro v hv
    exact setIfNotExists_eq_present s k pl v hv

/-- C5 witness: on the empty store the first SetIfNotExists returns
version 1, the stored value is the first payload at version 1, and the
second call fails with AlreadyExists without changing the state. -/
theorem setIfNotExists_once_witness :
    (setIfNotExists emptyStore "foo" "bar").1 = Except.ok 1 ∧
      kvGet (setIfNotExists emptyStore "foo" "bar").2 "foo" = Except.ok ⟨"bar", 1⟩ ∧
      setIfNotExists (setIfNotExists emptyStore "foo" "bar").2 "foo" "bar" =
        (Except.error KVError.alreadyExists, (setIfNotExists emptyStore "foo" "bar").2) :=
  (setIfNotExists_once emptyStore "foo" "bar" "bar").1 (by decide)

/-- After Watch, the Watchable for the key heads its handle list with the
fresh handle id, which does not occur in the tail. -/
theorem watch_watchable_fresh (s : StoreState) (k : String) (hInv : Inv s) :
    ∃ w2, alookup ((watch s k).2).watchables k = some w2 ∧
      ∃ tl, w2.handles = s.nextHandleId :: tl ∧ s.nextHandleId ∉ tl := by
  obtain ⟨hnd, hH, hW⟩ := hInv
  rcases hA : alookup s.watchables k with _ | w
  · rw [watch_eq_create s k hA]
    exact ⟨_, alookup_aset_self _ _ _, [], rfl, List.not_mem_nil _⟩
  · rw [watch_eq_attach s k w hA]
    refine ⟨_, alookup_aset_self _ _ _, w.handles, rfl, fun hmem => ?_⟩
    obtain ⟨hwk, hwid, hwatt⟩ := hW _ (alookup_mem _ _ _ hA)
    obtain ⟨pp, hpp, hpe, hpk⟩ := hwatt _ hmem
    exact Nat.ne_of_lt (hH pp hpp).1 hpe

/-- The handle returned by Watch starts with no current value and an
empty notification channel, whatever the backend holds. -/
theorem watch_initial (s : StoreState) (k : String) :
    handleCurrent (watch s k).2 (watch s k).1 = none ∧
      handleNotif (watch s k).2 (watch s k).1 = false := by
  have hl0 : alookup ((watch s k).2).handleStates (watch s k).1 =
      some ⟨k, none, false, false⟩ := by
    rw [watch_handleStates, watch_fst]
    exact alookup_aset_self _ _ _
  constructor
  · unfold handleCurrent
    rw [hl0]
  · unfold handleNotif
    rw [hl0]

/-- Once the update cycle after a Watch observes the backend's value, the
fresh handle holds that value and a pending notification. -/
theorem watch_then_tick (s : StoreState) (k : String) (hInv : Inv s)
    (v : VersionedValue) (hv : alookup s.backend k = some v) :
    handleCurrent (updateTick (watch s k).2 k) (watch s k).1 = some v ∧
      handleNotif (updateTick (watch s k).2 k) (watch s k).1 = true := by
  have hl0 : alookup ((watch s k).2).handleStates s.nextHandleId =
      some ⟨k, none, false, false⟩ := by
    rw [watch_handleStates]
    exact alookup_aset_self _ _ _
  obtain ⟨w2, hw2, tl, htl, hnotin⟩ := watch_watchable_fresh s k hInv
  have hB2 : alookup ((watch s k).2).backend k = some v := by
    rw [watch_backend]
    exact hv
  have hts : (updateTick (watch s k).2 k).handleStates =
      deliver v w2.handles ((watch s k).2).handleStates := by
    rw [updateTick_eq_update _ k w2 v hw2 hB2]
  have hone : deliverOne v ((watch s k).2).handleStates s.nextHandleId =
      aset ((watch s k).2).handleStates s.nextHandleId ⟨k, some v, true, false⟩ := by
    rw [deliverOne_update v _ _ ⟨k, none, false, false⟩ hl0 rfl (by simp)]
  have hlup : alookup (updateTick (watch s k).2 k).handleStates (watch s k).1 =
      some ⟨k, some v, true, false⟩ := by
    rw [watch_fst, hts, htl, deliver_cons, hone,
      deliver_lookup_not_mem v tl _ _ hnotin]
    exact alookup_aset_self _ _ _
  constructor
  · unfold handleCurrent
    rw [hlup]
  · unfold handleNotif
    rw [hlup]

/-- C6: Watch never blocks waiting for an initial value — immediately
after Watch returns, the handle's Current() is none and its notification
channel is empty (in particular whenever the Watchable has not yet
observed a value, including when the key already has a value in the
backend), and once the update cycle observes a backend value the handle is
notified asynchronously with it. -/
theorem watch_never_blocks (s : StoreState) (k : String) (hInv : Inv s) :
    handleCurrent (watch s k).2 (watch s k).1 = none ∧
      handleNotif (watch s k).2 (watch s k).1 = false ∧
      ∀ v, alookup s.backend k = some v →
        handleCurrent (updateTick (watch s k).2 k) (watch s k).1 = some v ∧
          handleNotif (updateTick (watch s k).2 k) (watch s k).1 = true :=
  ⟨(watch_initial s k).1, (watch_initial s k).2,
    fun v hv => watch_then_tick s k hInv v hv⟩

/-- C6 witness: watching the key on a store whose backend already holds
payload bar1 at version 1 — the fresh handle starts with no value and an
empty channel, and one update cycle delivers the existing value. -/
theorem watch_never_blocks_witness :
    handleCurrent (watch (kvSet emptyStore "foo" "bar1").2 "foo").2
        (watch (kvSet emptyStore "foo" "bar1").2 "foo").1 = none ∧
      handleNotif (watch (kvSet emptyStore "foo" "bar1").2 "foo").2
        (watch (kvSet emptyStore "foo" "bar1").2 "foo").1 = false ∧
      ∀ v, alookup (kvSet emptyStore "foo" "bar1").2.backend "foo" = some v →
        handleCurrent
            (updateTick (watch (kvSet emptyStore "foo" "bar1").2 "foo").2 "foo")
            (watch (kvSet emptyStore "foo" "bar1").2 "foo").1 = some v ∧
          handleNotif
            (updateTick (watch (kvSet emptyStore "foo" "bar1").2 "foo").2 "foo")
            (watch (kvSet emptyStore "foo" "bar1").2 "foo").1 = true :=
  watch_never_blocks (kvSet emptyStore "foo" "bar1").2 "foo" (by decide)

/-- C7: for a single key every Watch Handle observes a non-decreasing
sequence of versions through Current() — no event of the system decreases
a handle's observed version, and the invariant is maintained — and after N
sequential Sets on a fresh key a handle created before they began reports
version N after one update cycle while receiving a single coalesced
notification: its channel holds one pending signal which, once read,
leaves the channel empty with Current() still at version N. -/
theorem watch_monotone_converges (e : Event) (s : StoreState) (hid : Nat)
    (hInv : Inv s) (N : Nat) (hN : 1 ≤ N) (pf : Nat → String) :
    (obsVersion s hid ≤ obsVersion (step e s) hid ∧ Inv (step e s)) ∧
      (obsVersion (updateTick (setN ((watch emptyStore "foo").2) "foo" pf N) "foo") 0 = N ∧
        handleNotif (updateTick (setN ((watch emptyStore "foo").2) "foo" pf N) "foo") 0 =
          true ∧
        obsVersion (readNotification
          (updateTick (setN ((watch emptyStore "foo").2) "foo" pf N) "foo") 0) 0 = N ∧
        handleNotif (readNotification
          (updateTick (setN ((watch emptyStore "foo").2) "foo" pf N) "foo") 0) 0 =
          false) := by
  refine ⟨⟨obsVersion_step_le e s hid hInv, inv_step e s hInv⟩, ?_⟩
  have hw1 : alookup ((watch emptyStore "foo").2).watchables "foo" =
      some ⟨0, "foo", none, [0]⟩ := by
    rw [watch_eq_create emptyStore "foo" rfl]
    exact alookup_aset_self _ _ _
  have hh1 : alookup ((watch emptyStore "foo").2).handleStates 0 =
      some ⟨"foo", none, false, false⟩ := by
    rw [watch_handleStates]
    exact alookup_aset_self _ _ _
  have hw2 : alookup (setN ((watch emptyStore "foo").2) "foo" pf N).watchables "foo" =
      some ⟨0, "foo", none, [0]⟩ := by
    rw [(setN_fields _ "foo" pf N).1]
    exact hw1
  have hh2 : alookup (setN ((watch emptyStore "foo").2) "foo" pf N).handleStates 0 =
      some ⟨"foo", none, false, false⟩ := by
    rw [(setN_fields _ "foo" pf N).2.1]
    exact hh1
  have hb2 : alookup (setN ((watch emptyStore "foo").2) "foo" pf N).backend "foo" =
      some ⟨pf N, N⟩ := by
    have hsl := setN_backend_lookup ((watch emptyStore "foo").2) "foo" pf N hN
    rw [show bver ((watch emptyStore "foo").2).backend "foo" = 0 from by
      rw [watch_backend]; rfl] at hsl
    rw [Nat.zero_add] at hsl
    exact hsl
  have hts : (updateTick (setN ((watch emptyStore "foo").2) "foo" pf N) "foo").handleStates =
      deliver ⟨pf N, N⟩ [0] (setN ((watch emptyStore "foo").2) "foo" pf N).handleStates := by
    rw [updateTick_eq_update _ "foo" ⟨0, "foo", none, [0]⟩ ⟨pf N, N⟩ hw2 hb2]
  have hlup : alookup
      (updateTick (setN ((watch emptyStore "foo").2) "foo" pf N) "foo").handleStates 0 =
      some ⟨"foo", some ⟨pf N, N⟩, true, false⟩ := by
    rw [hts, show ([0] : List Nat) = 0 :: [] from rfl, deliver_cons]
    rw [deliverOne_update _ _ _ ⟨"foo", none, false, false⟩ hh2 rfl (by simp)]
    exact alookup_aset_self _ _ _
  have hlup2 : alookup (readNotification
      (updateTick (setN ((watch emptyStore "foo").2) "foo" pf N) "foo") 0).handleStates 0 =
      some ⟨"foo", some ⟨pf N, N⟩, false, false⟩ := by
    rw [readNotification_eq _ 0 _ hlup]
    exact alookup_aset_self _ _ _
  refine ⟨?_, ?_, ?_, ?_⟩
  · rw [obsVersion_of_lookup _ 0 _ hlup]
    rfl
  · unfold handleNotif
    rw [hlup]
  · rw [obsVersion_of_lookup _ 0 _ hlup2]
    rfl
  · unfold handleNotif
    rw [hlup2]

/-- C7 witness: with three sequential Sets on the fresh key, the handle
created first reports version 3 after one update cycle with one pending
coalesced notification, and version 3 persists after the notification is
read; the per-event monotonicity facts are instantiated at a concrete Set
event on the empty store. -/
theorem watch_monotone_converges_witness :
    (obsVersion emptyStore 0 ≤ obsVersion (step (Event.eset "foo" "x") emptyStore) 0 ∧
        Inv (step (Event.eset "foo" "x") emptyStore)) ∧
      (obsVersion (updateTick
          (setN ((watch emptyStore "foo").2) "foo" (fun _ => "bar") 3) "foo") 0 = 3 ∧
        handleNotif (updateTick
          (setN ((watch emptyStore "foo").2) "foo" (fun _ => "bar") 3) "foo") 0 = true ∧
        obsVersion (readNotification (updateTick
          (setN ((watch emptyStore "foo").2) "foo" (fun _ => "bar") 3) "foo") 0) 0 = 3 ∧
        handleNotif (readNotification (updateTick
          (setN ((watch emptyStore "foo").2) "foo" (fun _ => "bar") 3) "foo") 0) 0 =
          false) :=
  watch_monotone_converges (Event.eset "foo" "x") emptyStore 0 (by decide) 3
    (by decide) (fun _ => "bar")

/-- A closed handle's Current() value and closed flag survive every event:
a closed handle receives no further deliveries. -/
theorem closed_frozen (e : Event) (s : StoreState) (hid : Nat) (h : HandleState)
    (hInv : Inv s) (hl : alookup s.handleStates hid = some h) (hc : h.closed = true) :
    ∃ h2, alookup (step e s).handleStates hid = some h2 ∧
      h2.current = h.current ∧ h2.closed = true := by
  obtain ⟨hnd, hH, hW⟩ := hInv
  cases e with
  | eset k p =>
    refine ⟨h, ?_, rfl, hc⟩
    show alookup ((kvSet s k p).2).handleStates hid = some h
    rw [kvSet_handleStates]
    exact hl
  | esetIfNotExists k p =>
    refine ⟨h, ?_, rfl, hc⟩
    show alookup ((setIfNotExists s k p).2).handleStates hid = some h
    rw [setIfNotExists_handleStates]
    exact hl
  | echeckAndSet k n p =>
    refine ⟨h, ?_, rfl, hc⟩
    show alookup ((checkAndSet s k n p).2).handleStates hid = some h
    rw [checkAndSet_handleStates]
    exact hl
  | ewatch k =>
    refine ⟨h, ?_, rfl, hc⟩
    show alookup ((watch s k).2).handleStates hid = some h
    rw [watch_handleStates]
    rw [alookup_aset_ne _ _ _ _ (Nat.ne_of_lt (hH _ (alookup_mem _ _ _ hl)).1)]
    exact hl
  | etick k =>
    show ∃ h2, alookup (updateTick s k).handleStates hid = some h2 ∧
      h2.current = h.current ∧ h2.closed = true
    rcases hA : alookup s.watchables k with _ | w
    · rw [updateTick_eq_no_watchable s k hA]
      exact ⟨h, hl, rfl, hc⟩
    · rcases hB : alookup s.backend k with _ | v
      · rw [updateTick_eq_no_value s k w hA hB]
        exact ⟨h, hl, rfl, hc⟩
      · have hts : (updateTick s k).handleStates = deliver v w.handles s.handleStates := by
          rw [updateTick_eq_update s k w v hA hB]
        rcases deliver_lookup v w.handles s.handleStates hid with h1 | ⟨hmem, h3, hh3, hcl3, hres⟩
        · refine ⟨h, ?_, rfl, hc⟩
          rw [hts, h1]
          exact hl
        · rw [hl] at hh3
          injection hh3 with hx
          subst hx
          simp [hc] at hcl3
  | eread hid2 =>
    show ∃ h2, alookup (readNotification s hid2).handleStates hid = some h2 ∧
      h2.current = h.current ∧ h2.closed = true
    rcases hA : alookup s.handleStates hid2 with _ | h3
    · rw [readNotification_eq_none s hid2 hA]
      exact ⟨h, hl, rfl, hc⟩
    · have hhs : (readNotification s hid2).handleStates =
          aset s.handleStates hid2 { h3 with notif := false } := by
        rw [readNotification_eq s hid2 h3 hA]
      by_cases he : hid = hid2
      · subst he
        rw [hl] at hA
        injection hA with hx
        subst hx
        refine ⟨{ h with notif := false }, ?_, rfl, hc⟩
        rw [hhs]
        exact alookup_aset_self _ _ _
      · refine ⟨h, ?_, rfl, hc⟩
        rw [hhs, alookup_aset_ne _ _ _ _ he]
        exact hl
  | eclose hid2 =>
    show ∃ h2, alookup (closeHandle s hid2).handleStates hid = some h2 ∧
      h2.current = h.current ∧ h2.closed = true
    rcases hA : alookup s.handleStates hid2 with _ | h3
    · rw [closeHandle_eq_unknown s hid2 hA]
      exact ⟨h, hl, rfl, hc⟩
    · by_cases hc3 : h3.closed = true
      · rw [closeHandle_eq_closed s hid2 h3 hA hc3]
        exact ⟨h, hl, rfl, hc⟩
      · have hc3f : h3.closed = false := by simpa using hc3
        by_cases he : hid = hid2
        · subst he
          rw [hl] at hA
          injection hA with hx
          rw [← hx] at hc3f
          rw [hc] at hc3f
          exact Bool.noConfusion hc3f
        · refine ⟨h, ?_, rfl, hc⟩
          rw [closeHandle_handleStates s hid2 h3 hA hc3f]
          rw [alookup_aset_ne _ _ _ _ he]
          exact hl

/-- C8: after Close() the handle's Current() is frozen at its last value
and no further event makes later updates visible through it; closing the
last attached handle removes the key's Watchable from the registry; a
subsequent Watch creates a distinct fresh Watchable — strictly larger
instance id, no observed value — whose first update cycle delivers the
backend's then-current value to the new handle rather than replaying
history. -/
theorem close_detach_teardown (e : Event) (s : StoreState) (hid : Nat)
    (h : HandleState) (w : Watchable) (hInv : Inv s)
    (hh : alookup s.handleStates hid = some h) (hcl : h.closed = false)
    (hw : alookup s.watchables h.key = some w) (hone : w.handles = [hid]) :
    handleCurrent (closeHandle s hid) hid = h.current ∧
      handleCurrent (step e (closeHandle s hid)) hid = h.current ∧
      alookup (closeHandle s hid).watchables h.key = none ∧
      (∃ w2, alookup ((watch (closeHandle s hid) h.key).2).watchables h.key = some w2 ∧
        w.id < w2.id ∧ w2.current = none) ∧
      ∀ v, alookup (closeHandle s hid).backend h.key = some v →
        handleCurrent (updateTick (watch (closeHandle s hid) h.key).2 h.key)
            (watch (closeHandle s hid) h.key).1 = some v ∧
          handleNotif (updateTick (watch (closeHandle s hid) h.key).2 h.key)
            (watch (closeHandle s hid) h.key).1 = true := by
  have hrem : w.handles.filter (fun x => decide (x ≠ hid)) = [] := by
    rw [hone]
    simp
  have hred := closeHandle_eq_last s hid h w hh hcl hw hrem
  have hInv3 : Inv (closeHandle s hid) := inv_closeHandle s hid hInv
  have hl3 : alookup (closeHandle s hid).handleStates hid =
      some { h with closed := true } := by
    rw [closeHandle_handleStates s hid h hh hcl]
    exact alookup_aset_self _ _ _
  have hreg : alookup (closeHandle s hid).watchables h.key = none := by
    rw [hred]
    exact alookup_aremove_self _ _
  refine ⟨?_, ?_, hreg, ?_, ?_⟩
  · unfold handleCurrent
    rw [hl3]
  · obtain ⟨h2, hl4, hcur, _⟩ := closed_frozen e (closeHandle s hid) hid
      { h with closed := true } hInv3 hl3 rfl
    unfold handleCurrent
    rw [hl4]
    exact hcur
  · rw [watch_eq_create (closeHandle s hid) h.key hreg]
    refine ⟨_, alookup_aset_self _ _ _, ?_, rfl⟩
    show w.id < (closeHandle s hid).nextWatchableId
    rw [(closeHandle_counters s hid).1]
    exact (hInv.2.2 _ (alookup_mem _ _ _ hw)).2.1
  · intro v hv
    exact watch_then_tick (closeHandle s hid) h.key hInv3 v hv

/-- C8 witness: on a store holding bar1 at version 1 with one handle
watching the key, closing that sole handle freezes its Current(), empties
the registry, and a fresh Watch creates a new Watchable with a larger id
whose first update cycle delivers the stored value; the frozen part is
instantiated at a subsequent Set event. -/
theorem close_detach_teardown_witness :
    handleCurrent (closeHandle (watch (kvSet emptyStore "foo" "bar1").2 "foo").2 0) 0 =
        none ∧
      handleCurrent (step (Event.eset "foo" "bar2")
        (closeHandle (watch (kvSet emptyStore "foo" "bar1").2 "foo").2 0)) 0 = none ∧
      alookup (closeHandle
        (watch (kvSet emptyStore "foo" "bar1").2 "foo").2 0).watchables "foo" = none ∧
      (∃ w2, alookup ((watch (closeHandle
          (watch (kvSet emptyStore "foo" "bar1").2 "foo").2 0) "foo").2).watchables
          "foo" = some w2 ∧ 0 < w2.id ∧ w2.current = none) ∧
      ∀ v, alookup (closeHandle
          (watch (kvSet emptyStore "foo" "bar1").2 "foo").2 0).backend "foo" = some v →
        handleCurrent (updateTick (watch (closeHandle
            (watch (kvSet emptyStore "foo" "bar1").2 "foo").2 0) "foo").2 "foo")
            (watch (closeHandle
              (watch (kvSet emptyStore "foo" "bar1").2 "foo").2 0) "foo").1 = some v ∧
          handleNotif (updateTick (watch (closeHandle
            (watch (kvSet emptyStore "foo" "bar1").2 "foo").2 0) "foo").2 "foo")
            (watch (closeHandle
              (watch (kvSet emptyStore "foo" "bar1").2 "foo").2 0) "foo").1 = true :=
  close_detach_teardown (Event.eset "foo" "bar2")
    (watch (kvSet emptyStore "foo" "bar1").2 "foo").2 0
    ⟨"foo", none, false, false⟩ ⟨0, "foo", none, [0]⟩
    (by decide) (by decide) (by decide) (by decide) (by decide)

end M3
